import Mathlib

/-!
Shallow embedding of the Trivia backend room/session coordinator
(`src/server.js`) and verification of its specified properties.

The mongoose documents become Lean structures; each HTTP route and
socket handler becomes a pure function from the documents it reads
(the `findOne` results are passed as `Option` arguments) to the
updated documents plus the list of socket events it emits.  Random
draws (`Math.random`) and the external question API are passed in as
explicit parameters.  `Date` fields that the code only tests for
presence (`endedAt`) are modelled as `Bool`.
-/

namespace Trivia

/-- Room lifecycle status: the `enum ['waiting', 'in-progress', 'completed']`
of the Room model. -/
inductive RoomStatus
  | waiting
  | inProgress
  | completed
deriving DecidableEq, Repr

/-- An entry of `Room.players`. -/
structure Player where
  id : String
  name : String
  ready : Bool
  score : Nat
deriving DecidableEq, Repr

/-- The Room document. -/
structure Room where
  code : String
  host : String
  category : String
  quizCount : Nat
  maxPlayers : Nat
  players : List Player
  isPublic : Bool
  status : RoomStatus
deriving DecidableEq, Repr

/-- An entry of `Game.questions`. -/
structure GQuestion where
  text : String
  options : List String
  correctAnswer : String
  timeLimit : Nat
deriving DecidableEq, Repr

/-- An entry of a score entry's `answers` array. -/
structure AnswerRecord where
  questionIndex : Nat
  answer : String
  isCorrect : Bool
  timeTaken : Nat
deriving DecidableEq, Repr

/-- An entry of `Game.scores`. -/
structure ScoreEntry where
  playerId : String
  playerName : String
  score : Nat
  answers : List AnswerRecord
deriving DecidableEq, Repr

/-- The Game document.  `endedAt` records only presence of the date. -/
structure Game where
  roomCode : String
  questions : List GQuestion
  currentQuestion : Nat
  scores : List ScoreEntry
  endedAt : Bool
deriving DecidableEq, Repr

/-- A stored Question document (the local question collection). -/
structure StoredQuestion where
  category : String
  difficulty : String
  question : String
  correctAnswer : String
  incorrectAnswers : List String
deriving DecidableEq, Repr

/-- A raw question record returned by the OpenTDB API. -/
structure ApiQuestion where
  question : String
  correct_answer : String
  incorrect_answers : List String
deriving DecidableEq, Repr

/-- A normalized question as produced by `fetchQuestions`. -/
structure NQuestion where
  text : String
  correctAnswer : String
  options : List String
deriving DecidableEq, Repr

/-- Socket events emitted to room members (and the host channel). -/
inductive Event
  | roomUpdated (room : Room)
  | canStartGame
  | gameStarted (questionIndex : Nat) (question : Option GQuestion) (totalQuestions : Nat)
  | nextQuestion (questionIndex : Nat) (question : Option GQuestion)
  | answerReceived (playerId : String) (questionIndex : Nat) (isCorrect : Bool)
  | gameEnded (scores : List ScoreEntry)
  | gameError (message : String)
deriving DecidableEq, Repr

/-- `decodeHtmlEntities` from `server.js`: the five chained `replace` calls. -/
def decodeHtmlEntities (text : String) : String :=
  ((((text.replace "&quot;" "\"").replace "&amp;" "&").replace
      "&lt;" "<").replace "&gt;" ">").replace "&#039;" "\x27"

/-- The `$project` stage of the database branch of `fetchQuestions`:
`options` is `$concatArrays [[correctAnswer], incorrectAnswers]`, unshuffled. -/
def projectQuestion (q : StoredQuestion) : NQuestion :=
  { text := q.question
    correctAnswer := q.correctAnswer
    options := q.correctAnswer :: q.incorrectAnswers }

/-- Normalization of one OpenTDB record inside `fetchQuestions`; the
comparator-based `shuffleArray` is passed in as the `shuffle` parameter. -/
def normalizeApiQuestion (shuffle : List String → List String) (q : ApiQuestion) : NQuestion :=
  { text := decodeHtmlEntities q.question
    correctAnswer := decodeHtmlEntities q.correct_answer
    options := shuffle
      (q.incorrect_answers.map decodeHtmlEntities ++ [decodeHtmlEntities q.correct_answer]) }

/-- `fetchQuestions` from `server.js`.  `dbSample` is the result of the
`$sample` aggregation (at most `count` documents), `apiResult` the outcome of
the `axios.get` call (`Except.error` when the request throws).  Note the code
returns whatever was assembled, short or not; it only throws when an
underlying operation throws. -/
def fetchQuestions (shuffle : List String → List String)
    (dbSample : List StoredQuestion)
    (apiResult : Except String (List ApiQuestion)) (count : Nat) :
    Except String (List NQuestion) :=
  let questions := dbSample.map projectQuestion
  if questions.length < count then
    match apiResult with
    | .error _ => .error "Failed to fetch questions"
    | .ok apiQs =>
        .ok ((questions ++ apiQs.map (normalizeApiQuestion shuffle)).take count)
  else
    .ok questions

/-- A freshly joined player record (`ready: false, score: 0`). -/
def mkPlayer (uid name : String) : Player :=
  { id := uid, name := name, ready := false, score := 0 }

/-- The room code draw `Math.floor(1000 + Math.random() * 9000).toString()`;
the random draw is the `draw` parameter. -/
def genCode (draw : Nat) : String := toString (1000 + draw % 9000)

/-- The room constructed by `POST /api/rooms` (and, with fixed configuration,
by the quick-match creation branch).  No store lookup is involved: the code
is drawn exactly once with no uniqueness check. -/
def createRoom (draw : Nat) (uid playerName category : String)
    (quizCount maxPlayers : Nat) (isPublic : Bool) : Room :=
  { code := genCode draw
    host := uid
    category := category
    quizCount := quizCount
    maxPlayers := maxPlayers
    players := [mkPlayer uid playerName]
    isPublic := isPublic
    status := RoomStatus.waiting }

/-- `POST /api/rooms` as a store transformer: saves the new room and
returns it.  The store is the list of Room documents. -/
def createRoomRoute (store : List Room) (draw : Nat) (uid playerName category : String)
    (quizCount maxPlayers : Nat) (isPublic : Bool) : List Room × Room :=
  let room := createRoom draw uid playerName category quizCount maxPlayers isPublic
  (store ++ [room], room)

/-- The quick-match `findOne` filter: public, category Random, waiting,
and `players.1` does not exist (fewer than two players). -/
def quickMatchEligible (r : Room) : Bool :=
  r.isPublic && r.category == "Random" &&
    decide (r.status = RoomStatus.waiting) && decide (r.players.length < 2)

/-- Join the first eligible room of the store (mongoose `findOne` returns the
first match); `none` when no room matches.  No capacity check is performed
on this path. -/
def quickMatchJoin (uid playerName : String) : List Room → Option (List Room)
  | [] => none
  | r :: rs =>
    if quickMatchEligible r then
      some ({ r with players := r.players ++ [mkPlayer uid playerName] } :: rs)
    else
      (quickMatchJoin uid playerName rs).map (r :: ·)

/-- `POST /api/rooms/quick-match`: join the first eligible room, else create a
new public Random room with `quizCount = 5`, `maxPlayers = 2`. -/
def quickMatch (store : List Room) (draw : Nat) (uid playerName : String) : List Room :=
  match quickMatchJoin uid playerName store with
  | some store' => store'
  | none => store ++ [createRoom draw uid playerName "Random" 5 2 true]

/-- Outcome of `POST /api/rooms/:code/join`. -/
inductive JoinOutcome
  | notFound
  | roomFull
  | alreadyStarted
  | joined
deriving DecidableEq, Repr

/-- Result of the join route: updated room document (when one exists),
status outcome, emitted events. -/
structure JoinResult where
  room : Option Room
  outcome : JoinOutcome
  events : List Event
deriving DecidableEq, Repr

/-- `POST /api/rooms/:code/join`: capacity is checked first
(`players.length >= maxPlayers`), then the waiting status. -/
def joinRoom (roomDoc : Option Room) (uid playerName : String) : JoinResult :=
  match roomDoc with
  | none => ⟨none, JoinOutcome.notFound, []⟩
  | some room =>
    if room.maxPlayers ≤ room.players.length then
      ⟨some room, JoinOutcome.roomFull, []⟩
    else if room.status ≠ RoomStatus.waiting then
      ⟨some room, JoinOutcome.alreadyStarted, []⟩
    else
      let room' := { room with players := room.players ++ [mkPlayer uid playerName] }
      ⟨some room', JoinOutcome.joined, [Event.roomUpdated room']⟩

/-- Result of `startGame` (and of the socket handlers that may call it). -/
structure StartResult where
  room : Room
  game : Option Game
  events : List Event
deriving DecidableEq, Repr

/-- The `startGame` helper of `server.js`.  `fetchResult` is the outcome of
`fetchQuestions`; on error the `catch` block emits `gameError` and leaves the
room untouched.  Note: the helper itself performs no status check. -/
def startGame (fetchResult : Except String (List NQuestion)) (room : Room) : StartResult :=
  match fetchResult with
  | .error _ => ⟨room, none, [Event.gameError "Failed to start game"]⟩
  | .ok fetched =>
      let questions := fetched.map fun q =>
        GQuestion.mk q.text q.options q.correctAnswer 15000
      let game : Game :=
        { roomCode := room.code
          questions := questions
          currentQuestion := 0
          scores := room.players.map fun p =>
            { playerId := p.id, playerName := p.name, score := 0, answers := [] }
          endedAt := false }
      let room' := { room with status := RoomStatus.inProgress }
      ⟨room', some game, [Event.gameStarted 0 (questions.get? 0) questions.length]⟩

/-- Apply `f` to the first element satisfying `p` (mongoose mutates the
document returned by `Array.prototype.find`). -/
def updateFirst (p : α → Bool) (f : α → α) : List α → List α
  | [] => []
  | x :: xs => if p x then f x :: xs else x :: updateFirst p f xs

/-- Result of a socket handler that may touch both documents. -/
structure ReadyResult where
  room : Option Room
  game : Option Game
  events : List Event
deriving DecidableEq, Repr

/-- The `playerReady` socket handler.  After toggling the flag: if every
player is ready, a single-player room auto-starts (with **no** status check),
a multi-player room signals the host. -/
def playerReady (roomDoc : Option Room) (uid : String) (isReady : Bool)
    (fetchResult : Except String (List NQuestion)) : ReadyResult :=
  match roomDoc with
  | none => ⟨none, none, []⟩
  | some room =>
    match room.players.find? (fun p => p.id == uid) with
    | none => ⟨some room, none, []⟩
    | some _ =>
      let room' := { room with
        players := updateFirst (fun p => p.id == uid)
          (fun p => { p with ready := isReady }) room.players }
      let baseEvents := [Event.roomUpdated room']
      if room'.players.all (·.ready) && decide (1 ≤ room'.players.length) then
        if room'.players.length == 1 then
          let s := startGame fetchResult room'
          ⟨some s.room, s.game, baseEvents ++ s.events⟩
        else
          ⟨some room', none, baseEvents ++ [Event.canStartGame]⟩
      else
        ⟨some room', none, baseEvents⟩

/-- The `startGame` socket handler: requires the caller to be the host and
the room to be waiting. -/
def startGameEvent (roomDoc : Option Room) (uid : String)
    (fetchResult : Except String (List NQuestion)) : ReadyResult :=
  match roomDoc with
  | none => ⟨none, none, []⟩
  | some room =>
    if room.host == uid && decide (room.status = RoomStatus.waiting) then
      let s := startGame fetchResult room
      ⟨some s.room, s.game, s.events⟩
    else
      ⟨some room, none, []⟩

/-- `Math.max(0, 10 - Math.floor(timeTaken / 1000))`; `Nat` subtraction
already truncates at zero exactly like the clamp. -/
def timeBonus (timeTaken : Nat) : Nat := max 0 (10 - timeTaken / 1000)

/-- Score increment of an accepted answer: `100 + timeBonus * 10` when
correct, nothing otherwise. -/
def answerDelta (question : GQuestion) (answer : String) (timeTaken : Nat) : Nat :=
  if question.correctAnswer == answer then 100 + timeBonus timeTaken * 10 else 0

/-- Record an accepted answer on the submitter's score entry: push the
answer record and add the score delta. -/
def applyAnswer (uid : String) (questionIndex : Nat) (answer : String)
    (timeTaken : Nat) (question : GQuestion) (scores : List ScoreEntry) :
    List ScoreEntry :=
  updateFirst (fun s => s.playerId == uid)
    (fun s => { s with
        answers := s.answers ++
          [⟨questionIndex, answer, question.correctAnswer == answer, timeTaken⟩]
        score := s.score + answerDelta question answer timeTaken })
    scores

/-- The barrier test: every score entry has some answer for `questionIndex`. -/
def allAnswered (questionIndex : Nat) (scores : List ScoreEntry) : Bool :=
  scores.all fun s => s.answers.any fun a => a.questionIndex == questionIndex

/-- Number of answers a score entry has recorded for question `k`. -/
def countAnswersFor (s : ScoreEntry) (k : Nat) : Nat :=
  s.answers.countP fun a => a.questionIndex == k

/-- Stable descending insertion by `score`: the JS comparator
`(a, b) => b.score - a.score` under the (stable) `Array.prototype.sort`. -/
def insertScoreDesc (x : ScoreEntry) : List ScoreEntry → List ScoreEntry
  | [] => [x]
  | y :: ys => if y.score ≤ x.score then x :: y :: ys else y :: insertScoreDesc x ys

/-- `game.scores.sort((a, b) => b.score - a.score)`. -/
def sortScoresDesc : List ScoreEntry → List ScoreEntry
  | [] => []
  | x :: xs => insertScoreDesc x (sortScoresDesc xs)

/-- Result of the `submitAnswer` socket handler. -/
structure SubmitResult where
  game : Option Game
  room : Option Room
  events : List Event
deriving DecidableEq, Repr

/-- The `submitAnswer` socket handler.  Early returns: missing game, ended
game, unknown submitter, duplicate answer.  An out-of-range `questionIndex`
makes the JS code throw on `question.correctAnswer` before any mutation; the
`catch` turns that into the same silent no-op, modelled by the `get?` guard.
In the game-over branch `roomDoc` is the `Room.findOne` result looked up for
the status flip, and the emitted score list is sorted; the sort happens after
the final save, so the stored game keeps the original entry order. -/
def submitAnswer (gameDoc : Option Game) (roomDoc : Option Room)
    (uid : String) (questionIndex : Nat) (answer : String) (timeTaken : Nat) :
    SubmitResult :=
  match gameDoc with
  | none => ⟨gameDoc, roomDoc, []⟩
  | some game =>
    if game.endedAt then ⟨gameDoc, roomDoc, []⟩ else
    match game.scores.find? (fun s => s.playerId == uid) with
    | none => ⟨gameDoc, roomDoc, []⟩
    | some playerScore =>
      match playerScore.answers.find? (fun a => a.questionIndex == questionIndex) with
      | some _ => ⟨gameDoc, roomDoc, []⟩
      | none =>
        match game.questions.get? questionIndex with
        | none => ⟨gameDoc, roomDoc, []⟩
        | some question =>
          let isCorrect := question.correctAnswer == answer
          let scores' := applyAnswer uid questionIndex answer timeTaken question game.scores
          let game' := { game with scores := scores' }
          let answerEvents := [Event.answerReceived uid questionIndex isCorrect]
          if allAnswered questionIndex scores' then
            if game'.currentQuestion + 1 < game'.questions.length then
              let advanced := { game' with currentQuestion := game'.currentQuestion + 1 }
              ⟨some advanced, roomDoc,
                answerEvents ++ [Event.nextQuestion advanced.currentQuestion
                  (advanced.questions.get? advanced.currentQuestion)]⟩
            else
              let finished := { game' with endedAt := true }
              ⟨some finished, roomDoc.map (fun r => { r with status := RoomStatus.completed }),
                answerEvents ++ [Event.gameEnded (sortScoresDesc finished.scores)]⟩
          else
            ⟨some game', roomDoc, answerEvents⟩

/-- Rank of a status along the intended lifecycle
`waiting → in-progress → completed`. -/
def statusRank : RoomStatus → Nat
  | RoomStatus.waiting => 0
  | RoomStatus.inProgress => 1
  | RoomStatus.completed => 2

/-! ### Helper lemmas -/

theorem mem_updateFirst_of_find? {p : α → Bool} {f : α → α} :
    ∀ {l : List α} {x : α}, l.find? p = some x →
      ∀ {y : α}, y ∈ updateFirst p f l → y ∈ l ∨ y = f x := by
  intro l
  induction l with
  | nil => intro x hx; simp [List.find?] at hx
  | cons a t ih =>
    intro x hx y hy
    by_cases hpa : p a
    · rw [List.find?_cons_of_pos _ hpa] at hx
      simp only [updateFirst, if_pos hpa] at hy
      rcases List.mem_cons.mp hy with h | h
      · right; rw [h, Option.some.injEq] at *; rw [hx]
      · left; exact List.mem_cons_of_mem _ h
    · rw [List.find?_cons_of_neg _ hpa] at hx
      simp only [updateFirst, if_neg hpa] at hy
      rcases List.mem_cons.mp hy with h | h
      · left; rw [h]; exact List.mem_cons_self _ _
      · rcases ih hx h with h' | h'
        · left; exact List.mem_cons_of_mem _ h'
        · right; exact h'

theorem find?_updateFirst {p : α → Bool} {f : α → α}
    (hf : ∀ a, p a = true → p (f a) = true) :
    ∀ {l : List α} {x : α}, l.find? p = some x →
      (updateFirst p f l).find? p = some (f x) := by
  intro l
  induction l with
  | nil => intro x hx; simp [List.find?] at hx
  | cons a t ih =>
    intro x hx
    by_cases hpa : p a
    · rw [List.find?_cons_of_pos _ hpa, Option.some.injEq] at hx
      subst hx
      simp only [updateFirst, if_pos hpa]
      exact List.find?_cons_of_pos _ (hf a hpa)
    · rw [List.find?_cons_of_neg _ hpa] at hx
      simp only [updateFirst, if_neg hpa]
      rw [List.find?_cons_of_neg _ hpa]
      exact ih hx

theorem head?_insertScoreDesc (x : ScoreEntry) (l : List ScoreEntry) :
    (insertScoreDesc x l).head? = some x ∨ (insertScoreDesc x l).head? = l.head? := by
  cases l with
  | nil => left; rfl
  | cons y ys =>
    by_cases h : y.score ≤ x.score
    · left; simp [insertScoreDesc, if_pos h]
    · right; simp [insertScoreDesc, if_neg h]

theorem chain'_insertScoreDesc (x : ScoreEntry) (l : List ScoreEntry)
    (hl : List.Chain' (fun a b => b.score ≤ a.score) l) :
    List.Chain' (fun a b => b.score ≤ a.score) (insertScoreDesc x l) := by
  induction l with
  | nil => simp [insertScoreDesc]
  | cons y ys ih =>
    rcases List.chain'_cons'.mp hl with ⟨hy, hys⟩
    by_cases h : y.score ≤ x.score
    · simpa [insertScoreDesc, if_pos h] using List.chain'_cons'.mpr ⟨by simpa using h, hl⟩
    · simp only [insertScoreDesc, if_neg h]
      refine List.chain'_cons'.mpr ⟨?_, ih hys⟩
      intro z hz
      rcases head?_insertScoreDesc x ys with hh | hh
      · rw [hh, Option.mem_def, Option.some.injEq] at hz
        subst hz; omega
      · rw [hh] at hz
        exact hy z hz

theorem chain'_sortScoresDesc (l : List ScoreEntry) :
    List.Chain' (fun a b => b.score ≤ a.score) (sortScoresDesc l) := by
  induction l with
  | nil => simp [sortScoresDesc]
  | cons x xs ih => exact chain'_insertScoreDesc x _ ih

theorem perm_insertScoreDesc (x : ScoreEntry) (l : List ScoreEntry) :
    (insertScoreDesc x l).Perm (x :: l) := by
  induction l with
  | nil => simp [insertScoreDesc]
  | cons y ys ih =>
    by_cases h : y.score ≤ x.score
    · simp [insertScoreDesc, if_pos h]
    · simp only [insertScoreDesc, if_neg h]
      exact (ih.cons y).trans (List.Perm.swap x y ys)

theorem perm_sortScoresDesc (l : List ScoreEntry) :
    (sortScoresDesc l).Perm l := by
  induction l with
  | nil => simp [sortScoresDesc]
  | cons x xs ih => exact (perm_insertScoreDesc x _).trans (ih.cons x)

/-! ### C10 — database questions keep the correct answer first -/

/-- C10: a question drawn from the local store is projected with
`options = [correctAnswer] ++ incorrectAnswers`, unshuffled, so the correct
answer is always the first option; the `fetchQuestions` database branch
returns exactly these projections, and only the external-API normalization
passes its options through the shuffle. -/
theorem db_question_options_unshuffled
    (q : StoredQuestion) (shuffle : List String → List String)
    (aq : ApiQuestion) (api : Except String (List ApiQuestion)) :
    (projectQuestion q).options = [q.correctAnswer] ++ q.incorrectAnswers ∧
    (projectQuestion q).options.head? = some q.correctAnswer ∧
    fetchQuestions shuffle [q] api 1 = Except.ok [projectQuestion q] ∧
    (normalizeApiQuestion shuffle aq).options =
      shuffle (aq.incorrect_answers.map decodeHtmlEntities ++
        [decodeHtmlEntities aq.correct_answer]) :=
  ⟨rfl, rfl, rfl, rfl⟩

/-! ### C9 — room code allocation never checks for collisions -/

/-- C9 counterexample: two `createRoom` calls whose random draws coincide
produce two active (waiting) rooms with the same code — the route performs
no uniqueness check and never retries. -/
theorem createRoom_code_collision :
    ∃ r1 r2 : Room,
      (createRoomRoute
          (createRoomRoute [] 234 "h1" "Ann" "Science" 5 2 true).1
          234 "h2" "Bob" "History" 5 2 true).1 = [r1, r2] ∧
      r1.code = r2.code ∧
      r1.status = RoomStatus.waiting ∧ r2.status = RoomStatus.waiting ∧
      r1.host ≠ r2.host :=
  ⟨createRoom 234 "h1" "Ann" "Science" 5 2 true,
   createRoom 234 "h2" "Bob" "History" 5 2 true,
   rfl, rfl, rfl, rfl, by decide⟩

/-- C9 amended: `createRoom` draws one code in 1000–9999 and appends the new
waiting room to the store unconditionally; no store lookup, uniqueness check
or retry takes place, so active rooms may share a code. -/
theorem createRoom_no_uniqueness_check (store : List Room) (draw : Nat)
    (uid playerName category : String) (quizCount maxPlayers : Nat) (isPublic : Bool) :
    createRoomRoute store draw uid playerName category quizCount maxPlayers isPublic =
      (store ++ [createRoom draw uid playerName category quizCount maxPlayers isPublic],
        createRoom draw uid playerName category quizCount maxPlayers isPublic) ∧
    (createRoom draw uid playerName category quizCount maxPlayers isPublic).code =
      toString (1000 + draw % 9000) ∧
    1000 ≤ 1000 + draw % 9000 ∧ 1000 + draw % 9000 ≤ 9999 ∧
    (createRoom draw uid playerName category quizCount maxPlayers isPublic).status =
      RoomStatus.waiting := by
  refine ⟨rfl, rfl, by omega, ?_, rfl⟩
  have h : draw % 9000 < 9000 := Nat.mod_lt draw (by norm_num)
  omega

/-! ### C6 — the broadcasts leak the correct answer -/

/-- Concrete waiting room used to exercise `startGame`. -/
def demoRoom : Room :=
  { code := "4242", host := "h", category := "General Knowledge", quizCount := 1
    maxPlayers := 2, players := [mkPlayer "h" "Hank"], isPublic := false
    status := RoomStatus.waiting }

/-- A successful fetch of one normalized question. -/
def demoFetch : Except String (List NQuestion) :=
  Except.ok [⟨"Capital of France?", "Paris", ["Paris", "London", "Berlin", "Madrid"]⟩]

/-- The first question of the demo game as stored in the Game document. -/
def demoQ0 : GQuestion :=
  ⟨"Capital of France?", ["Paris", "London", "Berlin", "Madrid"], "Paris", 15000⟩

/-- The second question of the demo game. -/
def demoQ1 : GQuestion :=
  ⟨"Capital of Germany?", ["Berlin", "Madrid", "Rome", "Oslo"], "Berlin", 15000⟩

/-- A running single-player game with two questions. -/
def demoGame : Game :=
  { roomCode := "4242", questions := [demoQ0, demoQ1], currentQuestion := 0
    scores := [⟨"h", "Hank", 0, []⟩], endedAt := false }

/-- C6: the `gameStarted` broadcast carries `game.questions[0]` whole — the
`correctAnswer` field included — and the `nextQuestion` broadcast likewise
carries the full next question; the spec's claim that the correct answer is
stripped from the wire is contradicted by the code at this concrete input. -/
theorem gameStarted_leaks_correctAnswer :
    (startGame demoFetch demoRoom).events =
      [Event.gameStarted 0 (some demoQ0) 1] ∧
    demoQ0.correctAnswer = "Paris" ∧
    (submitAnswer (some demoGame) (some demoRoom) "h" 0 "Paris" 500).events =
      [Event.answerReceived "h" 0 true, Event.nextQuestion 1 (some demoQ1)] ∧
    demoQ1.correctAnswer = "Berlin" := by
  refine ⟨?_, rfl, ?_, rfl⟩ <;> decide

/-! ### C4 — capacity is enforced on join-by-code but not on quick-match -/

/-- A public Random waiting room whose creator set `maxPlayers = 1`. -/
def tinyRoom : Room :=
  { code := "1000", host := "h", category := "Random", quizCount := 5
    maxPlayers := 1, players := [mkPlayer "h" "Hank"], isPublic := true
    status := RoomStatus.waiting }

/-- C4 counterexample: the quick-match join appends a second player to a
single-player public Random room without any capacity check, so a room with
`maxPlayers = 1` ends the join attempt with `len(players) = 2 > maxPlayers`
and no `RoomFull` rejection is ever produced on this path. -/
theorem quickMatch_capacity_violation :
    ∃ r ∈ quickMatch [tinyRoom] 0 "u2" "Bea", r.maxPlayers < r.players.length := by
  decide

theorem quickMatchJoin_capacity (uid playerName : String) :
    ∀ store store' : List Room, quickMatchJoin uid playerName store = some store' →
      (∀ r ∈ store, r.players.length ≤ r.maxPlayers ∧ 2 ≤ r.maxPlayers) →
      ∀ r' ∈ store', r'.players.length ≤ r'.maxPlayers := by
  intro store
  induction store with
  | nil => intro store' h _ r' _; simp [quickMatchJoin] at h
  | cons r rs ih =>
    intro store' h hinv r' hr'
    by_cases he : quickMatchEligible r
    · simp only [quickMatchJoin, if_pos he, Option.some.injEq] at h
      subst h
      rcases List.mem_cons.mp hr' with rfl | hmem
      · have h2 := (hinv r (List.mem_cons_self r rs)).2
        simp only [quickMatchEligible, Bool.and_eq_true, decide_eq_true_eq] at he
        simp only [List.length_append, List.length_cons, List.length_nil]
        omega
      · exact (hinv r' (List.mem_cons_of_mem r hmem)).1
    · simp only [quickMatchJoin, if_neg he] at h
      cases hq : quickMatchJoin uid playerName rs with
      | none => rw [hq] at h; simp at h
      | some s' =>
        rw [hq] at h
        simp only [Option.map_some', Option.some.injEq] at h
        subst h
        rcases List.mem_cons.mp hr' with rfl | hmem
        · exact (hinv _ (List.mem_cons_self _ rs)).1
        · exact ih s' hq (fun x hx => hinv x (List.mem_cons_of_mem r hx)) r' hmem

/-- C4 amended: `POST /api/rooms/:code/join` preserves the capacity invariant
and rejects with `RoomFull` (room unchanged) exactly when the room is at or
above capacity; the quick-match path performs no capacity check, but it
respects the invariant on any store whose rooms all have `maxPlayers ≥ 2`
(quick-match only ever joins a room with fewer than two players). -/
theorem join_capacity_invariant_amended (roomDoc : Option Room)
    (uid playerName : String) (store : List Room) (draw : Nat) :
    (∀ room, roomDoc = some room → room.players.length ≤ room.maxPlayers →
      ∀ r', (joinRoom roomDoc uid playerName).room = some r' →
        r'.players.length ≤ r'.maxPlayers) ∧
    (∀ room, roomDoc = some room → room.maxPlayers ≤ room.players.length →
      joinRoom roomDoc uid playerName = ⟨some room, JoinOutcome.roomFull, []⟩) ∧
    ((∀ r ∈ store, r.players.length ≤ r.maxPlayers ∧ 2 ≤ r.maxPlayers) →
      ∀ r' ∈ quickMatch store draw uid playerName,
        r'.players.length ≤ r'.maxPlayers) := by
  refine ⟨?_, ?_, ?_⟩
  · rintro room rfl hlen r' hr'
    by_cases h1 : room.maxPlayers ≤ room.players.length
    · simp only [joinRoom, if_pos h1, Option.some.injEq] at hr'
      subst hr'; exact hlen
    · by_cases h2 : room.status ≠ RoomStatus.waiting
      · simp only [joinRoom, if_neg h1, if_pos h2, Option.some.injEq] at hr'
        subst hr'; exact hlen
      · simp only [joinRoom, if_neg h1, if_neg h2, Option.some.injEq] at hr'
        subst hr'
        simp only [List.length_append, List.length_cons, List.length_nil]
        omega
  · rintro room rfl hfull
    simp [joinRoom, if_pos hfull]
  · intro hinv r' hr'
    cases hq : quickMatchJoin uid playerName store with
    | some s' =>
      rw [quickMatch, hq] at hr'
      exact quickMatchJoin_capacity uid playerName store s' hq hinv r' hr'
    | none =>
      rw [quickMatch, hq] at hr'
      rcases List.mem_append.mp hr' with hmem | hmem
      · exact (hinv r' hmem).1
      · rcases List.mem_singleton.mp hmem with rfl
        simp [createRoom, mkPlayer]

/-- A well-configured public Random waiting room (`maxPlayers = 2`). -/
def okRoom : Room :=
  { code := "2000", host := "h", category := "Random", quizCount := 5
    maxPlayers := 2, players := [mkPlayer "h" "Hank"], isPublic := true
    status := RoomStatus.waiting }

theorem join_capacity_invariant_amended_witness :
    (∀ r ∈ [okRoom], r.players.length ≤ r.maxPlayers ∧ 2 ≤ r.maxPlayers) ∧
    ∀ r' ∈ quickMatch [okRoom] 0 "u2" "Bea", r'.players.length ≤ r'.maxPlayers :=
  ⟨by decide,
    (join_capacity_invariant_amended (some okRoom) "u2" "Bea" [okRoom] 0).2.2 (by decide)⟩

/-! ### C5 — status can regress through the playerReady auto-start -/

/-- A completed single-player room whose player is still flagged ready. -/
def doneRoom : Room :=
  { code := "3000", host := "h", category := "Random", quizCount := 5
    maxPlayers := 2, players := [⟨"h", "Hank", true, 0⟩], isPublic := true
    status := RoomStatus.completed }

/-- C5 counterexample: a `playerReady` toggle on a *completed* single-player
room re-enters the auto-start path — which never checks `room.status` — so
the room regresses from `completed` back to `in-progress` and a second Game
document is created for it. -/
theorem playerReady_status_regression :
    (playerReady (some doneRoom) "h" true demoFetch).room =
      some { doneRoom with status := RoomStatus.inProgress } ∧
    (playerReady (some doneRoom) "h" true demoFetch).game.isSome = true ∧
    statusRank RoomStatus.inProgress < statusRank RoomStatus.completed := by
  refine ⟨?_, ?_, ?_⟩ <;> decide

theorem submitAnswer_room_shape (gameDoc : Option Game) (roomDoc : Option Room)
    (uid : String) (questionIndex : Nat) (answer : String) (timeTaken : Nat) :
    (submitAnswer gameDoc roomDoc uid questionIndex answer timeTaken).room = roomDoc ∨
    (submitAnswer gameDoc roomDoc uid questionIndex answer timeTaken).room =
      roomDoc.map (fun r => { r with status := RoomStatus.completed }) := by
  simp only [submitAnswer]
  repeat' split
  all_goals first | (left; rfl) | (right; rfl)

theorem statusRank_le_two (s : RoomStatus) : statusRank s ≤ 2 := by
  cases s <;> simp [statusRank]

/-- C5 amended: the explicit `startGame` socket event starts a game only
when the room is `waiting`, and the `startGame` event, `joinRoom` and
`submitAnswer` never decrease the status rank along
`waiting → in-progress → completed`; the `playerReady` auto-start path,
however, invokes `startGame` without a status check, so a ready toggle on a
single-player in-progress or completed room regresses the status to
`in-progress` and starts another game (see the counterexample). -/
theorem status_monotone_amended (room : Room) (uid playerName answer : String)
    (fetch : Except String (List NQuestion)) (gameDoc : Option Game)
    (questionIndex timeTaken : Nat) :
    ((startGameEvent (some room) uid fetch).game.isSome = true →
      room.status = RoomStatus.waiting) ∧
    (∀ r', (startGameEvent (some room) uid fetch).room = some r' →
      statusRank room.status ≤ statusRank r'.status) ∧
    (∀ r', (joinRoom (some room) uid playerName).room = some r' →
      statusRank room.status ≤ statusRank r'.status) ∧
    (∀ r', (submitAnswer gameDoc (some room) uid questionIndex answer timeTaken).room =
        some r' → statusRank room.status ≤ statusRank r'.status) := by
  refine ⟨?_, ?_, ?_, ?_⟩
  · by_cases hc : (room.host == uid && decide (room.status = RoomStatus.waiting)) = true
    · intro _
      exact of_decide_eq_true ((Bool.and_eq_true _ _).mp hc).2
    · intro h
      simp [startGameEvent, hc] at h
  · intro r' hr'
    by_cases hc : (room.host == uid && decide (room.status = RoomStatus.waiting)) = true
    · have hw : room.status = RoomStatus.waiting :=
        of_decide_eq_true ((Bool.and_eq_true _ _).mp hc).2
      simp only [startGameEvent, if_pos hc, Option.some.injEq] at hr'
      cases fetch with
      | error e =>
        simp only [startGame] at hr'
        subst hr'; exact Nat.le_refl _
      | ok qs =>
        simp only [startGame] at hr'
        subst hr'
        simp [hw, statusRank]
    · simp only [startGameEvent, if_neg hc, Option.some.injEq] at hr'
      subst hr'; exact Nat.le_refl _
  · intro r' hr'
    by_cases h1 : room.maxPlayers ≤ room.players.length
    · simp only [joinRoom, if_pos h1, Option.some.injEq] at hr'
      subst hr'; exact Nat.le_refl _
    · by_cases h2 : room.status ≠ RoomStatus.waiting
      · simp only [joinRoom, if_neg h1, if_pos h2, Option.some.injEq] at hr'
        subst hr'; exact Nat.le_refl _
      · simp only [joinRoom, if_neg h1, if_neg h2, Option.some.injEq] at hr'
        subst hr'; exact Nat.le_refl _
  · intro r' hr'
    rcases submitAnswer_room_shape gameDoc (some room) uid questionIndex answer timeTaken
        with h | h
    · rw [h, Option.some.injEq] at hr'
      subst hr'; exact Nat.le_refl _
    · rw [h, Option.map_some', Option.some.injEq] at hr'
      subst hr'
      exact statusRank_le_two room.status

theorem status_monotone_amended_witness :
    (startGameEvent (some okRoom) "h" demoFetch).game.isSome = true ∧
    okRoom.status = RoomStatus.waiting :=
  ⟨by decide,
    (status_monotone_amended okRoom "h" "x" "a" demoFetch none 0 0).1 (by decide)⟩

/-! ### C7 — a short question list is returned without error -/

/-- An external API call that succeeds but returns no questions. -/
def emptyApi : Except String (List ApiQuestion) := Except.ok []

/-- A single stored question in the local collection. -/
def oneStored : StoredQuestion := ⟨"Science", "easy", "Q1", "A1", ["B1", "C1", "D1"]⟩

/-- C7 counterexample: with one local question and an API that returns zero
records, only 1 < 5 questions can be assembled — yet `fetchQuestions`
returns the short list without any `QuestionSourceError`, and `startGame`
happily creates a one-question game and flips the room to `in-progress`. -/
theorem fetchQuestions_short_no_error :
    fetchQuestions id [oneStored] emptyApi 5 = Except.ok [projectQuestion oneStored] ∧
    (startGame (fetchQuestions id [oneStored] emptyApi 5) okRoom).game.map
      (fun g => g.questions.length) = some 1 ∧
    (startGame (fetchQuestions id [oneStored] emptyApi 5) okRoom).room.status =
      RoomStatus.inProgress := by
  refine ⟨?_, ?_, ?_⟩ <;> rfl

/-- C7 amended: `fetchQuestions` fails only when an underlying source
operation fails (the modelled failure is the API request); on such a failure
`startGame` reports `gameError` to the room, creates no Game and leaves the
room document — hence its status — untouched.  On success the game starts
with `currentQuestion = 0` and *at most* `quizCount` questions: a short
assembly is not an error and the game simply runs with fewer questions. -/
theorem fetchQuestions_error_only_on_failure (shuffle : List String → List String)
    (dbSample : List StoredQuestion) (apiResult : Except String (List ApiQuestion))
    (count : Nat) (room : Room) :
    (∀ e, fetchQuestions shuffle dbSample apiResult count = Except.error e →
      startGame (fetchQuestions shuffle dbSample apiResult count) room =
        ⟨room, none, [Event.gameError "Failed to start game"]⟩) ∧
    (dbSample.length ≤ count →
      ∀ qs, fetchQuestions shuffle dbSample apiResult count = Except.ok qs →
        qs.length ≤ count) ∧
    (∀ qs, fetchQuestions shuffle dbSample apiResult count = Except.ok qs →
      ∃ g, (startGame (fetchQuestions shuffle dbSample apiResult count) room).game =
          some g ∧
        g.currentQuestion = 0 ∧ g.questions.length = qs.length ∧
        (startGame (fetchQuestions shuffle dbSample apiResult count) room).room =
          { room with status := RoomStatus.inProgress }) := by
  refine ⟨?_, ?_, ?_⟩
  · intro e he
    rw [he]
    rfl
  · intro hlen qs hqs
    simp only [fetchQuestions] at hqs
    split at hqs
    · split at hqs
      · exact absurd hqs (by simp)
      · injection hqs with h
        subst h
        simp only [List.length_take]
        omega
    · injection hqs with h
      subst h
      simpa using hlen
  · intro qs hqs
    rw [hqs]
    exact ⟨_, rfl, rfl, by simp [startGame], rfl⟩

theorem fetchQuestions_error_only_on_failure_witness :
    fetchQuestions id [oneStored] emptyApi 1 = Except.ok [projectQuestion oneStored] ∧
    ∃ g, (startGame (fetchQuestions id [oneStored] emptyApi 1) okRoom).game = some g ∧
      g.currentQuestion = 0 ∧ g.questions.length = [projectQuestion oneStored].length ∧
      (startGame (fetchQuestions id [oneStored] emptyApi 1) okRoom).room =
        { okRoom with status := RoomStatus.inProgress } :=
  ⟨rfl, (fetchQuestions_error_only_on_failure id [oneStored] emptyApi 1 okRoom).2.2 _ rfl⟩

/-! ### C1 — submitAnswer is a silent no-op in all rejection cases -/

/-- C1: for every game state, `submitAnswer` is a silent no-op — the game
document, the room document (hence every player's score and answer list) are
returned unchanged and no event is emitted — whenever the game does not
exist, the game has already ended, the submitter has no score entry, or the
submitter already has an answer recorded for `questionIndex`. -/
theorem submitAnswer_noop_idempotent (gameDoc : Option Game) (roomDoc : Option Room)
    (uid answer : String) (questionIndex timeTaken : Nat)
    (h : gameDoc = none ∨ ∃ game, gameDoc = some game ∧
        (game.endedAt = true ∨
          game.scores.find? (fun s => s.playerId == uid) = none ∨
          ∃ sc, game.scores.find? (fun s => s.playerId == uid) = some sc ∧
            ∃ a, sc.answers.find? (fun a => a.questionIndex == questionIndex) = some a)) :
    submitAnswer gameDoc roomDoc uid questionIndex answer timeTaken =
      ⟨gameDoc, roomDoc, []⟩ := by
  rcases h with rfl | ⟨game, rfl, h⟩
  · rfl
  · rcases h with hend | hnone | ⟨sc, hsc, a, ha⟩
    · simp [submitAnswer, hend]
    · by_cases hend : game.endedAt = true
      · simp [submitAnswer, hend]
      · simp [submitAnswer, hend, hnone]
    · by_cases hend : game.endedAt = true
      · simp [submitAnswer, hend]
      · simp [submitAnswer, hend, hsc, ha]

/-- A game in which player `"h"` has already answered question 0. -/
def dupGame : Game :=
  { roomCode := "4242", questions := [demoQ0, demoQ1], currentQuestion := 0
    scores := [⟨"h", "Hank", 200, [⟨0, "Paris", true, 500⟩]⟩], endedAt := false }

theorem submitAnswer_noop_idempotent_witness :
    (some dupGame = none ∨ ∃ game, some dupGame = some game ∧
        (game.endedAt = true ∨
          game.scores.find? (fun s => s.playerId == "h") = none ∨
          ∃ sc, game.scores.find? (fun s => s.playerId == "h") = some sc ∧
            ∃ a, sc.answers.find? (fun a => a.questionIndex == 0) = some a)) ∧
    submitAnswer (some dupGame) (some demoRoom) "h" 0 "Paris" 500 =
      ⟨some dupGame, some demoRoom, []⟩ :=
  ⟨Or.inr ⟨dupGame, rfl, Or.inr (Or.inr
      ⟨⟨"h", "Hank", 200, [⟨0, "Paris", true, 500⟩]⟩, rfl, ⟨0, "Paris", true, 500⟩, rfl⟩)⟩,
   submitAnswer_noop_idempotent (some dupGame) (some demoRoom) "h" "Paris" 0 500
     (Or.inr ⟨dupGame, rfl, Or.inr (Or.inr
       ⟨⟨"h", "Hank", 200, [⟨0, "Paris", true, 500⟩]⟩, rfl, ⟨0, "Paris", true, 500⟩, rfl⟩)⟩)⟩

/-! ### C3 — score delta of an accepted answer -/

/-- C3: an accepted correct answer increases the submitter's score by exactly
`100 + 10 * max 0 (10 - timeTaken / 1000)` (the bonus is clamped at zero and
never subtracted), and an accepted incorrect answer leaves the score
unchanged; the answer record is appended either way. -/
theorem submitAnswer_score_delta (game : Game) (roomDoc : Option Room)
    (uid answer : String) (questionIndex timeTaken : Nat)
    (sc : ScoreEntry) (question : GQuestion)
    (hend : game.endedAt = false)
    (hsc : game.scores.find? (fun s => s.playerId == uid) = some sc)
    (hnew : sc.answers.find? (fun a => a.questionIndex == questionIndex) = none)
    (hq : game.questions.get? questionIndex = some question) :
    (submitAnswer (some game) roomDoc uid questionIndex answer timeTaken).game.bind
        (fun g => g.scores.find? (fun s => s.playerId == uid)) =
      some { sc with
        answers := sc.answers ++
          [⟨questionIndex, answer, question.correctAnswer == answer, timeTaken⟩]
        score := sc.score + (if question.correctAnswer == answer
          then 100 + 10 * max 0 (10 - timeTaken / 1000) else 0) } := by
  have hdelta : answerDelta question answer timeTaken =
      (if question.correctAnswer == answer
        then 100 + 10 * max 0 (10 - timeTaken / 1000) else 0) := by
    simp only [answerDelta, timeBonus, Nat.mul_comm]
  have hfind : (applyAnswer uid questionIndex answer timeTaken question game.scores).find?
      (fun s => s.playerId == uid) =
      some { sc with
        answers := sc.answers ++
          [⟨questionIndex, answer, question.correctAnswer == answer, timeTaken⟩]
        score := sc.score + (if question.correctAnswer == answer
          then 100 + 10 * max 0 (10 - timeTaken / 1000) else 0) } := by
    rw [← hdelta]
    exact @find?_updateFirst ScoreEntry (fun s => s.playerId == uid)
      (fun s => { s with
          answers := s.answers ++
            [⟨questionIndex, answer, question.correctAnswer == answer, timeTaken⟩]
          score := s.score + answerDelta question answer timeTaken })
      (fun a ha => ha) game.scores sc hsc
  simp only [submitAnswer, hend, Bool.false_eq_true, if_false, hsc, hnew, hq]
  split
  · split
    · exact hfind
    · exact hfind
  · exact hfind

theorem submitAnswer_score_delta_witness :
    demoGame.endedAt = false ∧
    (submitAnswer (some demoGame) (some demoRoom) "h" 0 "Paris" 500).game.bind
        (fun g => g.scores.find? (fun s => s.playerId == "h")) =
      some ⟨"h", "Hank", 200, [⟨0, "Paris", true, 500⟩]⟩ := by
  refine ⟨rfl, ?_⟩
  have h := submitAnswer_score_delta demoGame (some demoRoom) "h" "Paris" 0 500
    ⟨"h", "Hank", 0, []⟩ demoQ0 rfl rfl rfl rfl
  simpa using h

/-! ### C2 — barrier correctness of submitAnswer -/

theorem allAnswered_applyAnswer_iff (uid answer : String) (k timeTaken : Nat)
    (question : GQuestion) (scores : List ScoreEntry) (sc : ScoreEntry)
    (hsc : scores.find? (fun s => s.playerId == uid) = some sc)
    (hnew : sc.answers.find? (fun a => a.questionIndex == k) = none)
    (hinv : ∀ s ∈ scores, countAnswersFor s k ≤ 1) :
    (allAnswered k (applyAnswer uid k answer timeTaken question scores) = true ↔
      ∀ s ∈ applyAnswer uid k answer timeTaken question scores,
        countAnswersFor s k = 1) := by
  have hsc0 : countAnswersFor sc k = 0 := by
    simp only [countAnswersFor]
    exact List.countP_eq_zero.mpr (List.find?_eq_none.mp hnew)
  have hupd : countAnswersFor
      { sc with
        answers := sc.answers ++ [⟨k, answer, question.correctAnswer == answer, timeTaken⟩]
        score := sc.score + answerDelta question answer timeTaken } k = 1 := by
    simp only [countAnswersFor] at hsc0 ⊢
    simp [List.countP_append, List.countP_cons, hsc0]
  constructor
  · intro hall s hs
    rcases mem_updateFirst_of_find? hsc hs with hmem | rfl
    · have hle := hinv s hmem
      have hany : (s.answers.any fun a => a.questionIndex == k) = true := by
        have h1 : (applyAnswer uid k answer timeTaken question scores).all
            (fun s => s.answers.any fun a => a.questionIndex == k) = true := hall
        exact List.all_eq_true.mp h1 s hs
      have hpos : 0 < countAnswersFor s k := by
        simp only [countAnswersFor]
        exact List.countP_pos_iff.mpr (List.any_eq_true.mp hany)
      omega
    · exact hupd
  · intro hcnt
    have h1 : ∀ s ∈ applyAnswer uid k answer timeTaken question scores,
        (s.answers.any fun a => a.questionIndex == k) = true := by
      intro s hs
      have hone := hcnt s hs
      have hpos : 0 < countAnswersFor s k := by omega
      simp only [countAnswersFor] at hpos
      exact List.any_eq_true.mpr (List.countP_pos_iff.mp hpos)
    exact List.all_eq_true.mpr h1

/-- C2: for an accepted submission for the current question `k`
(the normal client protocol: the submitted index is the game's
`currentQuestion`), and under the at-most-one-answer-per-question invariant,
the game advances to question `k + 1` — `currentQuestion` incremented by
exactly one — iff `k` is not the last index and every current score entry
has exactly one recorded answer for `k`; when `k` is the last index and
every entry has an answer for it, `endedAt` is set, the room status becomes
`completed`, and the `gameEnded` broadcast carries the score entries sorted
descending by score (a permutation of the stored entries). -/
theorem submitAnswer_barrier_correct (game : Game) (room : Room)
    (uid answer : String) (timeTaken k : Nat) (sc : ScoreEntry)
    (hend : game.endedAt = false)
    (hsc : game.scores.find? (fun s => s.playerId == uid) = some sc)
    (hnew : sc.answers.find? (fun a => a.questionIndex == k) = none)
    (hk : game.currentQuestion = k)
    (hklt : k < game.questions.length)
    (hinv : ∀ s ∈ game.scores, countAnswersFor s k ≤ 1) :
    ∃ g', (submitAnswer (some game) (some room) uid k answer timeTaken).game = some g' ∧
      (g'.currentQuestion = k + 1 ∨ g'.currentQuestion = k) ∧
      (g'.currentQuestion = k + 1 ↔
        k + 1 < game.questions.length ∧ ∀ s ∈ g'.scores, countAnswersFor s k = 1) ∧
      (g'.endedAt = true ↔
        game.questions.length ≤ k + 1 ∧ ∀ s ∈ g'.scores, countAnswersFor s k = 1) ∧
      (g'.endedAt = true →
        (submitAnswer (some game) (some room) uid k answer timeTaken).room =
          some { room with status := RoomStatus.completed } ∧
        Event.gameEnded (sortScoresDesc g'.scores) ∈
          (submitAnswer (some game) (some room) uid k answer timeTaken).events ∧
        List.Chain' (fun a b => b.score ≤ a.score) (sortScoresDesc g'.scores) ∧
        (sortScoresDesc g'.scores).Perm g'.scores) := by
  subst hk
  obtain ⟨question, hq⟩ :
      ∃ q, game.questions.get? game.currentQuestion = some q :=
    ⟨_, List.get?_eq_get hklt⟩
  have hiff := allAnswered_applyAnswer_iff uid answer game.currentQuestion timeTaken
    question game.scores sc hsc hnew hinv
  simp only [submitAnswer, hend, Bool.false_eq_true, if_false, hsc, hnew, hq]
  by_cases hall : allAnswered game.currentQuestion
      (applyAnswer uid game.currentQuestion answer timeTaken question game.scores) = true
  · by_cases hlt : game.currentQuestion + 1 < game.questions.length
    · rw [if_pos hall, if_pos hlt]
      refine ⟨_, rfl, Or.inl rfl, ?_, ?_, ?_⟩
      · exact ⟨fun _ => ⟨hlt, hiff.mp hall⟩, fun _ => rfl⟩
      · constructor
        · intro hE; simp [hend] at hE
        · rintro ⟨hle, -⟩; exact absurd hle (by omega)
      · intro hE; simp [hend] at hE
    · rw [if_pos hall, if_neg hlt]
      refine ⟨_, rfl, Or.inr rfl, ?_, ?_, ?_⟩
      · constructor
        · intro h; exfalso; simp at h
        · rintro ⟨hlt', -⟩; exact absurd hlt' hlt
      · exact ⟨fun _ => ⟨by omega, hiff.mp hall⟩, fun _ => rfl⟩
      · intro _
        refine ⟨rfl, ?_, chain'_sortScoresDesc _, perm_sortScoresDesc _⟩
        simp
  · rw [if_neg hall]
    have hnotall : ¬ ∀ s ∈ applyAnswer uid game.currentQuestion answer timeTaken
        question game.scores, countAnswersFor s game.currentQuestion = 1 :=
      fun hc => hall (hiff.mpr hc)
    refine ⟨_, rfl, Or.inr rfl, ?_, ?_, ?_⟩
    · constructor
      · intro h; exfalso; simp at h
      · rintro ⟨-, hc⟩; exact absurd hc hnotall
    · constructor
      · intro hE; simp [hend] at hE
      · rintro ⟨-, hc⟩; exact absurd hc hnotall
    · intro hE; simp [hend] at hE

/-- A two-player three-question game at question 0 in which player `"h"`
has (out of protocol) already answered question 2. -/
def offGame : Game :=
  { roomCode := "4242", questions := [demoQ0, demoQ1, demoQ0], currentQuestion := 0
    scores := [⟨"h", "Hank", 0, [⟨2, "X", false, 1000⟩]⟩, ⟨"u2", "Bea", 0, []⟩]
    endedAt := false }

/-- C2 counterexample: the code's barrier keys on the *submitted*
`questionIndex`, not on `currentQuestion`, so when both players have
answered question 2 while the game is still at question 0, the game
advances from question 0 to question 1 even though no score entry has any
answer recorded for question 0 — refuting the claimed biconditional read
over arbitrary submissions. -/
theorem submitAnswer_barrier_offindex :
    ∃ g', (submitAnswer (some offGame) (some demoRoom) "u2" 2 "Y" 1000).game = some g' ∧
      g'.currentQuestion = offGame.currentQuestion + 1 ∧
      ¬ ∀ s ∈ g'.scores, countAnswersFor s offGame.currentQuestion = 1 :=
  ⟨_, rfl, by decide, by decide⟩

/-- A two-player game at its last question; one player has answered. -/
def wGame : Game :=
  { roomCode := "4242", questions := [demoQ0], currentQuestion := 0
    scores := [⟨"h", "Hank", 200, [⟨0, "Paris", true, 500⟩]⟩, ⟨"u2", "Bea", 0, []⟩]
    endedAt := false }

theorem submitAnswer_barrier_correct_witness :
    (wGame.endedAt = false ∧
      wGame.scores.find? (fun s => s.playerId == "u2") = some ⟨"u2", "Bea", 0, []⟩ ∧
      (ScoreEntry.mk "u2" "Bea" 0 []).answers.find? (fun a => a.questionIndex == 0) =
        none ∧
      wGame.currentQuestion = 0 ∧ 0 < wGame.questions.length ∧
      ∀ s ∈ wGame.scores, countAnswersFor s 0 ≤ 1) ∧
    ∃ g', (submitAnswer (some wGame) (some demoRoom) "u2" 0 "London" 3000).game =
        some g' ∧
      (g'.currentQuestion = 0 + 1 ∨ g'.currentQuestion = 0) ∧
      (g'.currentQuestion = 0 + 1 ↔
        0 + 1 < wGame.questions.length ∧ ∀ s ∈ g'.scores, countAnswersFor s 0 = 1) ∧
      (g'.endedAt = true ↔
        wGame.questions.length ≤ 0 + 1 ∧ ∀ s ∈ g'.scores, countAnswersFor s 0 = 1) ∧
      (g'.endedAt = true →
        (submitAnswer (some wGame) (some demoRoom) "u2" 0 "London" 3000).room =
          some { demoRoom with status := RoomStatus.completed } ∧
        Event.gameEnded (sortScoresDesc g'.scores) ∈
          (submitAnswer (some wGame) (some demoRoom) "u2" 0 "London" 3000).events ∧
        List.Chain' (fun a b => b.score ≤ a.score) (sortScoresDesc g'.scores) ∧
        (sortScoresDesc g'.scores).Perm g'.scores) :=
  ⟨⟨rfl, rfl, rfl, rfl, by decide, by decide⟩,
    submitAnswer_barrier_correct wGame demoRoom "u2" "London" 3000 0 ⟨"u2", "Bea", 0, []⟩
      rfl rfl rfl rfl (by decide) (by decide)⟩

end Trivia
